import Mathlib

/-!
Shallow embedding of the reflex event-streaming library: the read-through
cache (`rcache`), the SQL stream client (`streamclient.Recv`), the insert
path (`InsertWithMetadata`), the in-memory notifier, and the blob-stream
cursor encoding (`cursor.String` / `parseCursor`).

Machine integers (Go `int64`) are modelled as `Int`; Go `time.Time` and
`time.Duration` are modelled as integers (instants and nanosecond
durations), so `t.After(u)` becomes `t > u` and `now.Add(-lag)` becomes
`now - lag`.  Go strings are modelled as `List Char`.  Fallible calls
return `Option`/`Except` values, and external effects (the SQL loader, the
insert statement, `getLatestID`) are passed in as explicit parameters or
oracles.
-/

/-- An event as seen by the cache and stream client: its integer id
(`Event.IDInt()` in Go) and its commit timestamp. -/
structure Event where
  id : Int
  timestamp : Int
deriving DecidableEq

/-- The error values that appear in the embedded code paths.  `wrap e`
models `errors.Wrap(e, "")`; `dbErr n` stands for an arbitrary opaque
error surfaced by the underlying loader or DB. -/
inductive Err
  | consecEvent
  | nextCursorMismatch
  | invalidIntID
  | invalidNoopEvent
  | ctxCanceled
  | dbErr (n : Nat)
  | wrap (e : Err)
deriving DecidableEq

deriving instance DecidableEq for Except

/-- A single loader response: `([]*reflex.Event, int64, error)` collapsed
into `Except`. -/
abbrev LoaderResp := Except Err (List Event × Int)

/-- `getLastID` from rcache.go: last event id, or 0 for an empty slice. -/
def getLastID (el : List Event) : Int :=
  match el.getLast? with
  | none => 0
  | some e => e.id

/-- The read-through cache state: the cached events and the size limit
(`defaultRCacheLimit = 10000`). -/
structure RCache where
  cache : List Event
  limit : Nat
deriving DecidableEq

def RCache.lenUnsafe (c : RCache) : Nat := c.cache.length

def RCache.emptyUnsafe (c : RCache) : Bool := c.lenUnsafe == 0

/-- `headUnsafe`: id of the first cached event, or 0 when empty. -/
def RCache.headUnsafe (c : RCache) : Int :=
  match c.cache.head? with
  | none => 0
  | some e => e.id

/-- `tailUnsafe`: id of the last cached event, or 0 when empty. -/
def RCache.tailUnsafe (c : RCache) : Int :=
  match c.cache.getLast? with
  | none => 0
  | some e => e.id

/-- The lag loop in `maybeHitUnsafe`: walk forward collecting events,
stopping at the first event with `Timestamp.After(cutOff)`. -/
def collectLag : List Event → Int → List Event
  | [], _ => []
  | e :: es, cutOff =>
    if e.timestamp > cutOff then [] else e :: collectLag es cutOff

/-- The result slice served on a cache hit: the suffix at
`offset = from - head` for `lag == 0`, else the collected lag-filtered
walk from that offset with `cutOff = now - lag`. -/
def RCache.hitRes (c : RCache) (from_ lag now : Int) : List Event :=
  let offset := (from_ - c.headUnsafe).toNat
  if lag = 0 then c.cache.drop offset
  else collectLag (c.cache.drop offset) (now - lag)

/-- `maybeHitUnsafe`: `none` models `(nil, false)`, `some res` models
`(res, true)`. -/
def RCache.maybeHitUnsafe (c : RCache) (from_ lag now : Int) : Option (List Event) :=
  if from_ < c.headUnsafe ∨ from_ > c.tailUnsafe then none
  else some (c.hitRes from_ lag now)

/-- `maybeUpdateUnsafe`: init when empty, re-init on gap, append when
consecutive, else ignore. -/
def RCache.maybeUpdateUnsafe (c : RCache) (el : List Event) : RCache :=
  match el.head? with
  | none => c
  | some e0 =>
    if c.emptyUnsafe then { c with cache := el }
    else if c.tailUnsafe + 1 < e0.id then { c with cache := el }
    else if c.tailUnsafe + 1 = e0.id then { c with cache := c.cache ++ el }
    else c

/-- `maybeTrimUnsafe`: drop the oldest entries when over the limit. -/
def RCache.maybeTrimUnsafe (c : RCache) : RCache :=
  if c.lenUnsafe > c.limit then
    { c with cache := c.cache.drop (c.lenUnsafe - c.limit) }
  else c

/-- `res[i].IDInt() == res[i-1].IDInt()+1` for all adjacent pairs: the
sanity check in `readThrough` and the cache invariant. -/
def consecEvents : List Event → Bool
  | [] => true
  | [_] => true
  | e1 :: e2 :: rest => (e2.id == e1.id + 1) && consecEvents (e2 :: rest)

/-- The full observable outcome of one `rcache.Load` call: the returned
triple, the cache state afterwards, whether the hits counter was bumped
(fast-path hit) and whether the underlying loader was invoked. -/
structure LoadResult where
  events : List Event
  next : Int
  error : Option Err
  cacheAfter : RCache
  hit : Bool
  loaderCalled : Bool
deriving DecidableEq

/-- `readThrough`: recheck the cache, call the loader, validate
consecutive ids and the next cursor, update and trim the cache. -/
def RCache.readThrough (c : RCache) (after lag now : Int) (loader : LoaderResp) : LoadResult :=
  match c.maybeHitUnsafe (after + 1) lag now with
  | some res =>
    { events := res, next := getLastID res, error := none,
      cacheAfter := c, hit := false, loaderCalled := false }
  | none =>
    match loader with
    | .error e =>
      { events := [], next := 0, error := some e,
        cacheAfter := c, hit := false, loaderCalled := true }
    | .ok (res, next) =>
      if res = [] then
        { events := [], next := after, error := none,
          cacheAfter := c, hit := false, loaderCalled := true }
      else if ¬ consecEvents res then
        { events := [], next := 0, error := some .consecEvent,
          cacheAfter := c, hit := false, loaderCalled := true }
      else if next ≠ getLastID res then
        { events := [], next := 0, error := some (.wrap .nextCursorMismatch),
          cacheAfter := c, hit := false, loaderCalled := true }
      else
        { events := res, next := next, error := none,
          cacheAfter := (c.maybeUpdateUnsafe res).maybeTrimUnsafe,
          hit := false, loaderCalled := true }

/-- `rcache.Load`: fast-path hit (hits counter) or read-through (miss
counter). -/
def RCache.Load (c : RCache) (after lag now : Int) (loader : LoaderResp) : LoadResult :=
  match c.maybeHitUnsafe (after + 1) lag now with
  | some res =>
    { events := res, next := getLastID res, error := none,
      cacheAfter := c, hit := true, loaderCalled := false }
  | none => c.readThrough after lag now loader


/-- Decimal digit characters, as produced by Go integer formatting. -/
def digitChar (d : Nat) : Char :=
  if d = 0 then '0' else if d = 1 then '1' else if d = 2 then '2'
  else if d = 3 then '3' else if d = 4 then '4' else if d = 5 then '5'
  else if d = 6 then '6' else if d = 7 then '7' else if d = 8 then '8'
  else '9'

/-- Digit value of a character, `none` for non-digits (the per-character
step of `strconv.ParseInt`). -/
def charDigitVal? (c : Char) : Option Nat :=
  if c = '0' then some 0 else if c = '1' then some 1 else if c = '2' then some 2
  else if c = '3' then some 3 else if c = '4' then some 4 else if c = '5' then some 5
  else if c = '6' then some 6 else if c = '7' then some 7 else if c = '8' then some 8
  else if c = '9' then some 9 else none

/-- Accumulating digit parse: fails on the first non-digit. -/
def parseNatAux : Nat → List Char → Option Nat
  | acc, [] => some acc
  | acc, c :: cs =>
    match charDigitVal? c with
    | none => none
    | some d => parseNatAux (acc * 10 + d) cs

/-- Parse a non-empty all-digit string to a natural number. -/
def parseNat? : List Char → Option Nat
  | [] => none
  | cs => parseNatAux 0 cs

/-- `strconv.ParseInt(s, 10, 64)`: optional sign, at least one digit, and
the signed 64-bit range check. -/
def parseInt64? (cs : List Char) : Option Int :=
  match cs with
  | [] => none
  | c :: rest =>
    if c = '+' then
      match parseNat? rest with
      | some n => if n ≤ 9223372036854775807 then some ((n : Int)) else none
      | none => none
    else if c = '-' then
      match parseNat? rest with
      | some n => if n ≤ 9223372036854775808 then some (-(n : Int)) else none
      | none => none
    else
      match parseNat? cs with
      | some n => if n ≤ 9223372036854775807 then some ((n : Int)) else none
      | none => none

/-- Fuel-indexed digit emission; the fuel only bounds the recursion depth
and `natToChars` always supplies enough of it. -/
def natToCharsAux : Nat → Nat → List Char
  | 0, _ => []
  | fuel + 1, n =>
    if n < 10 then [digitChar n]
    else natToCharsAux fuel (n / 10) ++ [digitChar (n % 10)]

/-- Decimal digits of a natural number, most significant first (the `%d`
formatting of a non-negative integer). -/
def natToChars (n : Nat) : List Char :=
  natToCharsAux (n + 1) n

/-- `fmt.Sprintf("%d", i)` for a signed integer. -/
def intToChars (i : Int) : List Char :=
  if i < 0 then '-' :: natToChars i.natAbs else natToChars i.toNat


/-- The mutable state of an rsql `streamclient`: the raw cursor string
`after`, the `StreamFromHead` option flag, the integer cursor `prev` and
the buffered events `buf`.  `Stream()` leaves `prev = 0` and `buf` empty. -/
structure StreamState where
  after : List Char
  streamFromHead : Bool
  prev : Int
  buf : List Event
deriving DecidableEq

/-- The `streamclient` built by `EventsTable.Stream`: Go zero values for
`prev` and `buf`. -/
def mkStream (after : List Char) (fromHead : Bool) : StreamState :=
  { after := after, streamFromHead := fromHead, prev := 0, buf := [] }

/-- Outcome of one `Recv` call.  `waiting` models a call still blocked in
the poll/backoff loop after exhausting the supplied loader oracle. -/
inductive RecvResult
  | ok (e : Event) (s : StreamState) (rest : List LoaderResp)
  | fail (e : Err)
  | waiting
deriving DecidableEq

/-- The once-off cursor initialisation at the top of `Recv`: from-head
lookup, or lazy parse of the raw cursor (`ErrInvalidIntID` on failure);
an empty raw cursor is skipped, leaving `prev` untouched. -/
def recvInit (latest : Except Err Int) (s : StreamState) : Except Err StreamState :=
  if s.streamFromHead then
    match latest with
    | .error e => .error e
    | .ok m => .ok { s with prev := m, streamFromHead := false }
  else if s.after = [] then .ok s
  else
    match parseInt64? s.after with
    | none => .error .invalidIntID
    | some i => .ok { s with prev := i, after := [] }

/-- The poll loop of `Recv`: pop the buffer if non-empty; otherwise
consume loader responses (`s.prev = next; s.buf = el`), waiting between
empty batches, until a non-empty batch arrives.  On return the popped
event's id is written to `prev`. -/
def recvLoop : StreamState → List LoaderResp → RecvResult
  | s, resps =>
    match s.buf with
    | e :: bs => .ok e { s with prev := e.id, buf := bs } resps
    | [] =>
      match resps with
      | [] => .waiting
      | .error er :: _ => .fail er
      | .ok (el, next) :: rs =>
        match el with
        | [] => recvLoop { s with prev := next, buf := [] } rs
        | e :: bs => .ok e { s with prev := e.id, buf := bs } rs

/-- `streamclient.Recv`: context check, cursor initialisation, then the
poll loop. -/
def recv (ctxErr : Option Err) (latest : Except Err Int)
    (resps : List LoaderResp) (s : StreamState) : RecvResult :=
  match ctxErr with
  | some e => .fail e
  | none =>
    match recvInit latest s with
    | .error e => .fail e
    | .ok s2 => recvLoop s2 resps

/-- View of a `Load` outcome as the `([]*reflex.Event, int64, error)`
triple the stream client's loader call sees. -/
def LoadResult.toResp (r : LoadResult) : LoaderResp :=
  match r.error with
  | some e => .error e
  | none => .ok (r.events, r.next)

/-- A Go channel of `struct{}`, abstracted to its capacity and the number
of values currently buffered. -/
structure GoChan where
  cap : Nat
  count : Nat
deriving DecidableEq

/-- A non-blocking send (`select { case l <- struct{}{}: default: }`):
deliver if there is buffer space, otherwise drop; never block. -/
def trySend (c : GoChan) : GoChan :=
  if c.count < c.cap then { c with count := c.count + 1 } else c

/-- The in-memory notifier: a mutex-protected list of listener channels.
The sequential model is faithful because `Notify` and `C` are whole
critical sections of that mutex. -/
structure InmemNotifier where
  listeners : List GoChan
deriving DecidableEq

/-- `inmemNotifier.Notify`: non-blocking send on every registered channel
(the first component is the channels as their holders observe them
afterwards), then clear the listener list. -/
def InmemNotifier.notify (n : InmemNotifier) : List GoChan × InmemNotifier :=
  (n.listeners.map trySend, ⟨[]⟩)

/-- `inmemNotifier.C`: make a fresh channel of capacity 1, append it to
the listener list, and hand it to the caller. -/
def InmemNotifier.C (n : InmemNotifier) : GoChan × InmemNotifier :=
  (⟨1, 0⟩, ⟨n.listeners ++ [⟨1, 0⟩]⟩)

/-- `isNoop`: foreignID `"0"` and reflex type 0 mark the noop sentinel. -/
def isNoop (foreignID : List Char) (typ : Int) : Bool :=
  foreignID == ['0'] && typ == 0

/-- The three values the `NotifyFunc` result of `InsertWithMetadata` can
take: Go `nil`, the package-level `noopFunc`, or the bound
`t.notifier.Notify`. -/
inductive NotifyRet
  | nilFunc
  | noopFunc
  | notifierNotify
deriving DecidableEq

/-- `EventsTable.InsertWithMetadata`: refuse noop sentinels, then issue
the SQL insert (an external effect whose outcome is the `insertResult`
parameter) and return the notifier binding. -/
def insertWithMetadata (foreignID : List Char) (typ : Int)
    (insertResult : Option Err) : NotifyRet × Option Err :=
  if isNoop foreignID typ then (.nilFunc, some .invalidNoopEvent)
  else
    match insertResult with
    | some e => (.noopFunc, some e)
    | none => (.notifierNotify, none)

/-- `strings.Split(cur, "|")` on the character-list model. -/
def splitOnBar : List Char → List (List Char)
  | [] => [[]]
  | c :: cs =>
    if c = '|' then [] :: splitOnBar cs
    else
      match splitOnBar cs with
      | [] => [[c]]
      | s :: ss => (c :: s) :: ss

/-- The rblob stream cursor: blob key, event offset in the blob, and the
last-event flag. -/
structure Cursor where
  Key : List Char
  Offset : Int
  Last : Bool
deriving DecidableEq

/-- `cursor.String()`: `fmt.Sprintf("%s|%d", Key, Offset)` with a
trailing `"|last"` when `Last` is set. -/
def Cursor.toChars (c : Cursor) : List Char :=
  let res := c.Key ++ '|' :: intToChars c.Offset
  if c.Last then res ++ '|' :: "last".toList else res

/-- `parseCursor`: empty means the zero cursor; otherwise split on `|`
into two or three fields, parse the offset as a signed 64-bit integer,
and require the third field (if any) to be `"last"`. -/
def parseCursor (cur : List Char) : Option Cursor :=
  if cur = [] then some ⟨[], 0, false⟩
  else
    match splitOnBar cur with
    | [k, o] =>
      match parseInt64? o with
      | some i => some ⟨k, i, false⟩
      | none => none
    | [k, o, l] =>
      match parseInt64? o with
      | some i => if l = "last".toList then some ⟨k, i, true⟩ else none
      | none => none
    | _ => none


theorem consecEvents_tail (e : Event) (xs : List Event)
    (h : consecEvents (e :: xs) = true) : consecEvents xs = true := by
  cases xs with
  | nil => rfl
  | cons y ys =>
    simp only [consecEvents, Bool.and_eq_true, beq_iff_eq] at h
    exact h.2

theorem consecEvents_append {xs ys : List Event}
    (hxs : consecEvents xs = true) (hys : consecEvents ys = true)
    (h : ∀ x y, xs.getLast? = some x → ys.head? = some y → y.id = x.id + 1) :
    consecEvents (xs ++ ys) = true := by
  induction xs with
  | nil => simpa using hys
  | cons a xs ih =>
    cases xs with
    | nil =>
      cases ys with
      | nil => simpa using hxs
      | cons b ys' =>
        have hb : b.id = a.id + 1 := h a b rfl rfl
        simp only [List.singleton_append, consecEvents, Bool.and_eq_true, beq_iff_eq]
        exact ⟨hb, hys⟩
    | cons a2 xs' =>
      simp only [consecEvents, Bool.and_eq_true, beq_iff_eq] at hxs
      have htail : consecEvents ((a2 :: xs') ++ ys) = true := by
        refine ih hxs.2 fun x y hx hy => h x y ?_ hy
        rw [List.getLast?_cons_cons]
        exact hx
      simp only [List.cons_append] at htail ⊢
      simp only [consecEvents, Bool.and_eq_true, beq_iff_eq]
      exact ⟨hxs.1, htail⟩

theorem consecEvents_drop (n : Nat) (l : List Event)
    (h : consecEvents l = true) : consecEvents (l.drop n) = true := by
  induction n generalizing l with
  | zero => simpa using h
  | succ n ih =>
    cases l with
    | nil => rfl
    | cons x xs =>
      rw [List.drop_succ_cons]
      exact ih xs (consecEvents_tail x xs h)

theorem consecEvents_maybeUpdate (c : RCache) (el : List Event)
    (hc : consecEvents c.cache = true) (hel : consecEvents el = true) :
    consecEvents (c.maybeUpdateUnsafe el).cache = true := by
  unfold RCache.maybeUpdateUnsafe
  cases el with
  | nil => exact hc
  | cons e0 tl =>
    simp only [List.head?_cons]
    split_ifs with h1 h2 h3
    · exact hel
    · exact hel
    · refine consecEvents_append hc hel fun x y hx hy => ?_
      have hxid : c.tailUnsafe = x.id := by
        simp [RCache.tailUnsafe, hx]
      simp only [List.head?_cons, Option.some.injEq] at hy
      subst hy
      omega
    · exact hc

theorem consecEvents_maybeTrim (c : RCache)
    (h : consecEvents c.cache = true) : consecEvents c.maybeTrimUnsafe.cache = true := by
  unfold RCache.maybeTrimUnsafe
  split_ifs
  · simpa using consecEvents_drop _ _ h
  · exact h

/-- C3: after every completed `Load` call on the read-through cache (any
result, error or not), the cached events have strictly consecutive ids:
the invariant is preserved by the init, append, reset-on-gap and
ignore-on-overlap update rules, by trimming, and by every error path. -/
theorem rcacheLoadPreservesConsec (c : RCache) (after lag now : Int) (loader : LoaderResp)
    (h : consecEvents c.cache = true) :
    consecEvents ((c.Load after lag now loader).cacheAfter).cache = true := by
  unfold RCache.Load RCache.readThrough
  cases hm : c.maybeHitUnsafe (after + 1) lag now with
  | some res => exact h
  | none =>
    cases loader with
    | error e => exact h
    | ok p =>
      obtain ⟨res, next⟩ := p
      simp only
      split_ifs with h1 h2 h3
      · exact h
      · exact h
      · exact consecEvents_maybeTrim _ (consecEvents_maybeUpdate c res h h2)
      · exact h

/-- C3 witness: a concrete `Load` that appends to a consecutive cache. -/
theorem rcacheLoadPreservesConsec_witness :
    consecEvents (((RCache.mk [⟨1, 0⟩, ⟨2, 0⟩] 10).Load 2 0 0
      (.ok ([⟨3, 0⟩, ⟨4, 0⟩], 4))).cacheAfter).cache = true :=
  rcacheLoadPreservesConsec (RCache.mk [⟨1, 0⟩, ⟨2, 0⟩] 10) 2 0 0
    (.ok ([⟨3, 0⟩, ⟨4, 0⟩], 4)) (by decide)

/-- C4: on read-through (a cache miss), a loader error passes through
untransformed; a non-empty batch with non-consecutive ids fails with
`ErrConsecEvent`; a consecutive batch whose reported next cursor differs
from the last event's id fails with the wrapped `ErrNextCursorMismatch`
(the only error the cache transforms); in every case no events are
returned and the cache is unchanged. -/
theorem rcacheLoadValidates (c : RCache) (after lag now : Int) (res : List Event) (next : Int)
    (hmiss : c.maybeHitUnsafe (after + 1) lag now = none) :
    (∀ e : Err, c.Load after lag now (.error e) =
      { events := [], next := 0, error := some e,
        cacheAfter := c, hit := false, loaderCalled := true }) ∧
    (res ≠ [] → consecEvents res = false →
      c.Load after lag now (.ok (res, next)) =
      { events := [], next := 0, error := some .consecEvent,
        cacheAfter := c, hit := false, loaderCalled := true }) ∧
    (res ≠ [] → consecEvents res = true → next ≠ getLastID res →
      c.Load after lag now (.ok (res, next)) =
      { events := [], next := 0, error := some (.wrap .nextCursorMismatch),
        cacheAfter := c, hit := false, loaderCalled := true }) := by
  refine ⟨?_, ?_, ?_⟩
  · intro e
    unfold RCache.Load RCache.readThrough
    rw [hmiss]
  · intro h1 h2
    unfold RCache.Load RCache.readThrough
    rw [hmiss]
    simp [h1, h2]
  · intro h1 h2 h3
    unfold RCache.Load RCache.readThrough
    rw [hmiss]
    simp [h1, h2, h3]

/-- C4 witness: the three validation outcomes at concrete inputs on an
empty cache queried past its (empty) range. -/
theorem rcacheLoadValidates_witness :
    (RCache.mk [] 10).Load 0 0 0 (.ok ([⟨2, 0⟩, ⟨4, 0⟩], 9)) =
      { events := [], next := 0, error := some .consecEvent,
        cacheAfter := ⟨[], 10⟩, hit := false, loaderCalled := true } ∧
    (RCache.mk [] 10).Load 0 0 0 (.ok ([⟨2, 0⟩, ⟨3, 0⟩], 9)) =
      { events := [], next := 0, error := some (.wrap .nextCursorMismatch),
        cacheAfter := ⟨[], 10⟩, hit := false, loaderCalled := true } ∧
    (RCache.mk [] 10).Load 0 0 0 (.error (.dbErr 7)) =
      { events := [], next := 0, error := some (.dbErr 7),
        cacheAfter := ⟨[], 10⟩, hit := false, loaderCalled := true } :=
  ⟨(rcacheLoadValidates ⟨[], 10⟩ 0 0 0 [⟨2, 0⟩, ⟨4, 0⟩] 9 (by decide)).2.1
      (by decide) (by decide),
   (rcacheLoadValidates ⟨[], 10⟩ 0 0 0 [⟨2, 0⟩, ⟨3, 0⟩] 9 (by decide)).2.2
      (by decide) (by decide) (by decide),
   (rcacheLoadValidates ⟨[], 10⟩ 0 0 0 [] 0 (by decide)).1 (.dbErr 7)⟩

/-- C9: on an empty cache, `Load` with `after = -1` (so `from = 0`) is a
cache hit — `headUnsafe` and `tailUnsafe` are both 0, the range check
passes — and it returns an empty slice, next cursor 0 and no error,
without invoking the underlying loader. -/
theorem rcacheLoadEmptyCacheHit (lag now : Int) (loader : LoaderResp) (lim : Nat) :
    (RCache.mk [] lim).Load (-1) lag now loader =
      { events := [], next := 0, error := none, cacheAfter := ⟨[], lim⟩,
        hit := true, loaderCalled := false } := by
  have hhit : (RCache.mk [] lim).maybeHitUnsafe (-1 + 1) lag now =
      some ((RCache.mk [] lim).hitRes (-1 + 1) lag now) := by
    unfold RCache.maybeHitUnsafe
    rw [if_neg]
    simp [RCache.headUnsafe, RCache.tailUnsafe]
  have hres : (RCache.mk [] lim).hitRes (-1 + 1) lag now = [] := by
    unfold RCache.hitRes
    split_ifs <;> simp [RCache.headUnsafe, collectLag]
  unfold RCache.Load
  rw [hhit, hres]
  rfl

/-- C1 (code bug): a cache hit that serves an empty slice returns
`getLastID(res) = 0` as the next cursor, not the input cursor `after`;
here `Load` succeeds with no events at `after = 5` yet reports next
cursor 0. -/
theorem rcacheLoadEmptyHitNextCursor_bug :
    ((RCache.mk [⟨6, 100⟩] 10000).Load 5 10 100 (.ok ([], 5))).error = none ∧
    ((RCache.mk [⟨6, 100⟩] 10000).Load 5 10 100 (.ok ([], 5))).events = [] ∧
    ((RCache.mk [⟨6, 100⟩] 10000).Load 5 10 100 (.ok ([], 5))).loaderCalled = false ∧
    ((RCache.mk [⟨6, 100⟩] 10000).Load 5 10 100 (.ok ([], 5))).next = 0 ∧
    ((RCache.mk [⟨6, 100⟩] 10000).Load 5 10 100 (.ok ([], 5))).next ≠ 5 := by
  decide

/-- C2 (code bug): two consecutive successful `Recv` calls on one client,
each fed by the actual cache `Load` embedding, return ids 4 then 1 — the
empty lag-window cache hit resets the cursor to 0 via `getLastID`, and the
following read-through redelivers an older event, violating strictly
increasing delivery. -/
theorem recvMonotonic_bug :
    recv none (.ok 0)
      [((RCache.mk [⟨4, 0⟩, ⟨5, 100⟩] 10000).Load 3 10 100 (.ok ([], 3))).toResp]
      ⟨[], false, 3, []⟩
      = .ok ⟨4, 0⟩ ⟨[], false, 4, []⟩ [] ∧
    recv none (.ok 0)
      [((RCache.mk [⟨4, 0⟩, ⟨5, 100⟩] 10000).Load 4 10 101 (.ok ([], 4))).toResp,
       ((RCache.mk [⟨4, 0⟩, ⟨5, 100⟩] 10000).Load 0 10 200 (.ok ([⟨1, 0⟩], 1))).toResp]
      ⟨[], false, 4, []⟩
      = .ok ⟨1, 0⟩ ⟨[], false, 1, []⟩ [] ∧
    (1 : Int) < 4 := by
  decide

/-- Modelled from the spec: the lag-window walk as the spec words it,
collecting events whose timestamp is STRICTLY older than the cutoff
(`timestamp < now - lag`), stopping at the first other event; written for
comparison with the source's `collectLag`. -/
def collectStrictOlder : List Event → Int → List Event
  | [], _ => []
  | e :: es, cutOff =>
    if e.timestamp < cutOff then e :: collectStrictOlder es cutOff else []

/-- C5 counterexample: a lagged cache hit at `now - lag = 90` returns the
event with timestamp exactly 90, which is not strictly older than
`now - lag`, so the returned slice differs from the spec's strictly-older
prefix. -/
theorem rcacheLagWindowStrict_cex :
    ((RCache.mk [⟨1, 90⟩] 10000).Load 0 10 100 (.ok ([], 0))).events = [⟨1, 90⟩] ∧
    ((RCache.mk [⟨1, 90⟩] 10000).Load 0 10 100 (.ok ([], 0))).loaderCalled = false ∧
    collectStrictOlder ((RCache.mk [⟨1, 90⟩] 10000).cache.drop 0) (100 - 10) = [] ∧
    ((RCache.mk [⟨1, 90⟩] 10000).Load 0 10 100 (.ok ([], 0))).events ≠
      collectStrictOlder ((RCache.mk [⟨1, 90⟩] 10000).cache.drop 0) (100 - 10) := by
  decide

theorem collectLag_eq_takeWhile (l : List Event) (cutOff : Int) :
    collectLag l cutOff = l.takeWhile fun e => decide (e.timestamp ≤ cutOff) := by
  induction l with
  | nil => rfl
  | cons e es ih =>
    by_cases h : e.timestamp > cutOff
    · simp [collectLag, List.takeWhile_cons, h, decide_eq_false (not_le.mpr h)]
    · push_neg at h
      simp [collectLag, List.takeWhile_cons, not_lt.mpr h, decide_eq_true h, ih]

/-- C5 (amended): when `from = after + 1` lies within the id range of a
non-empty cache, `Load` is a hit and the loader is not invoked; with
`lag = 0` the whole cached suffix from `offset = from - head` is
returned, and with `lag ≠ 0` the returned slice is the maximal prefix of
that suffix whose events' timestamps are NOT AFTER `now - lag`
(`timestamp ≤ now - lag`; the source keeps an event whose timestamp
equals the cutoff), stopping at the first too-new event. -/
theorem rcacheCacheHit (c : RCache) (after lag now : Int) (loader : LoaderResp)
    (hne : c.cache ≠ [])
    (hlo : c.headUnsafe ≤ after + 1) (hhi : after + 1 ≤ c.tailUnsafe) :
    ((c.Load after lag now loader).loaderCalled = false) ∧
    ((c.Load after lag now loader).hit = true) ∧
    ((c.Load after lag now loader).error = none) ∧
    (lag = 0 → (c.Load after lag now loader).events =
      c.cache.drop (after + 1 - c.headUnsafe).toNat) ∧
    (lag ≠ 0 → (c.Load after lag now loader).events =
      (c.cache.drop (after + 1 - c.headUnsafe).toNat).takeWhile
        fun e => decide (e.timestamp ≤ now - lag)) := by
  have hhit : c.maybeHitUnsafe (after + 1) lag now =
      some (c.hitRes (after + 1) lag now) := by
    unfold RCache.maybeHitUnsafe
    rw [if_neg]
    push_neg
    omega
  unfold RCache.Load
  rw [hhit]
  refine ⟨rfl, rfl, rfl, ?_, ?_⟩
  · intro h0
    simp only [RCache.hitRes, if_pos h0]
  · intro h0
    simp only [RCache.hitRes, if_neg h0]
    exact collectLag_eq_takeWhile _ _

/-- C5 witness: a concrete lagged hit returning the boundary event and
stopping before the too-new one. -/
theorem rcacheCacheHit_witness :
    ((RCache.mk [⟨1, 90⟩, ⟨2, 95⟩] 10).Load 0 10 100 (.error (.dbErr 1))).loaderCalled
      = false ∧
    ((RCache.mk [⟨1, 90⟩, ⟨2, 95⟩] 10).Load 0 10 100 (.error (.dbErr 1))).events
      = [⟨1, 90⟩] := by
  have h := rcacheCacheHit (RCache.mk [⟨1, 90⟩, ⟨2, 95⟩] 10) 0 10 100
    (.error (.dbErr 1)) (by decide) (by decide) (by decide)
  refine ⟨h.1, ?_⟩
  rw [h.2.2.2.2 (by decide)]
  decide

/-- C6 counterexample: on the noop-sentinel inputs `InsertWithMetadata`
returns a non-nil error together with a nil `NotifyFunc` — not the
non-nil no-op the claim promises — so `defer notify()` would panic
there. -/
theorem insertNoopNotify_cex :
    (insertWithMetadata ['0'] 0 none).2 ≠ none ∧
    (insertWithMetadata ['0'] 0 none).1 = .nilFunc ∧
    (insertWithMetadata ['0'] 0 none).1 ≠ .noopFunc := by
  decide

/-- C6 (amended): `InsertWithMetadata` refuses the sentinel inputs
(foreignID `"0"`, type 0) with an error and a NIL `NotifyFunc`; only when
the SQL insert itself fails is the returned `NotifyFunc` the non-nil
no-op; on success it is the notifier's bound `Notify`. -/
theorem insertWithMetadataNotify (foreignID : List Char) (typ : Int)
    (insertResult : Option Err) :
    (isNoop foreignID typ = true →
      insertWithMetadata foreignID typ insertResult =
        (.nilFunc, some .invalidNoopEvent)) ∧
    (isNoop foreignID typ = false → ∀ e : Err, insertResult = some e →
      insertWithMetadata foreignID typ insertResult = (.noopFunc, some e)) ∧
    (isNoop foreignID typ = false → insertResult = none →
      insertWithMetadata foreignID typ insertResult = (.notifierNotify, none)) := by
  refine ⟨?_, ?_, ?_⟩
  · intro h
    simp [insertWithMetadata, h]
  · intro h e he
    simp [insertWithMetadata, h, he]
  · intro h he
    simp [insertWithMetadata, h, he]

/-- C6 witness: the three return shapes at concrete inputs. -/
theorem insertWithMetadataNotify_witness :
    insertWithMetadata ['0'] 0 none = (.nilFunc, some .invalidNoopEvent) ∧
    insertWithMetadata ['x'] 0 (some (.dbErr 3)) = (.noopFunc, some (.dbErr 3)) ∧
    insertWithMetadata ['x'] 0 none = (.notifierNotify, none) :=
  ⟨(insertWithMetadataNotify ['0'] 0 none).1 (by decide),
   (insertWithMetadataNotify ['x'] 0 (some (.dbErr 3))).2.1 (by decide) _ rfl,
   (insertWithMetadataNotify ['x'] 0 none).2.2 (by decide) rfl⟩

/-- C7: `Notify` on the in-memory notifier performs a non-blocking send
on every registered channel — a total update that delivers when there is
buffer space and silently drops when the channel is full, never blocking
— and then clears the listener list (listeners are single-shot); each
`C()` registers a fresh channel of capacity 1. -/
theorem inmemNotifierNonBlocking (n : InmemNotifier) :
    (n.notify.2.listeners = []) ∧
    (n.notify.1 = n.listeners.map trySend) ∧
    (∀ ch : GoChan, (ch.cap ≤ ch.count → trySend ch = ch) ∧
      (ch.count < ch.cap → trySend ch = { ch with count := ch.count + 1 })) ∧
    (n.C.1 = ⟨1, 0⟩) ∧
    (n.C.2.listeners = n.listeners ++ [⟨1, 0⟩]) := by
  refine ⟨rfl, rfl, ?_, rfl, rfl⟩
  intro ch
  constructor
  · intro h
    simp [trySend, not_lt.mpr h]
  · intro h
    simp [trySend, h]

/-- C7 witness: a full one-slot channel is skipped, an empty one receives
the value, and the listener list is cleared. -/
theorem inmemNotifierNonBlocking_witness :
    trySend ⟨1, 1⟩ = ⟨1, 1⟩ ∧
    trySend ⟨1, 0⟩ = ⟨1, 1⟩ ∧
    (InmemNotifier.mk [⟨1, 1⟩, ⟨1, 0⟩]).notify.2.listeners = [] :=
  ⟨((inmemNotifierNonBlocking ⟨[]⟩).2.2.1 ⟨1, 1⟩).1 (by decide),
   ((inmemNotifierNonBlocking ⟨[]⟩).2.2.1 ⟨1, 0⟩).2 (by decide),
   (inmemNotifierNonBlocking ⟨[⟨1, 1⟩, ⟨1, 0⟩]⟩).1⟩

/-- C8: on a client without the from-head option, a non-empty raw cursor
that fails signed 64-bit parsing makes the first `Recv` return
`ErrInvalidIntID` (whatever the loader would answer); an empty raw cursor
is not parsed — `Recv` proceeds straight to the poll loop with the
client state unchanged — and a freshly built client starts with internal
cursor 0. -/
theorem recvCursorParse (resps : List LoaderResp) (latest : Except Err Int)
    (s : StreamState) (hhead : s.streamFromHead = false) :
    (s.after ≠ [] → parseInt64? s.after = none →
      recv none latest resps s = .fail .invalidIntID) ∧
    (s.after = [] → recv none latest resps s = recvLoop s resps) ∧
    ((mkStream s.after s.streamFromHead).prev = 0) := by
  refine ⟨?_, ?_, rfl⟩
  · intro h1 h2
    unfold recv recvInit
    simp [hhead, h1, h2]
  · intro h1
    unfold recv recvInit
    simp [hhead, h1]

/-- C8 witness: `after = "abc"` fails with `ErrInvalidIntID`; the empty
cursor goes straight to the loop from cursor 0. -/
theorem recvCursorParse_witness :
    recv none (.ok 0) [] (mkStream "abc".toList false) = .fail .invalidIntID ∧
    recv none (.ok 0) [] (mkStream [] false) = recvLoop (mkStream [] false) [] ∧
    (mkStream [] false).prev = 0 :=
  ⟨(recvCursorParse [] (.ok 0) (mkStream "abc".toList false) rfl).1
      (by decide) (by decide),
   (recvCursorParse [] (.ok 0) (mkStream [] false) rfl).2.1 rfl,
   (recvCursorParse [] (.ok 0) (mkStream [] false) rfl).2.2⟩

theorem charDigitVal_digitChar (d : Nat) (h : d < 10) :
    charDigitVal? (digitChar d) = some d := by
  interval_cases d <;> rfl

theorem digitChar_ne (d : Nat) :
    digitChar d ≠ '|' ∧ digitChar d ≠ '+' ∧ digitChar d ≠ '-' := by
  unfold digitChar
  split_ifs <;> refine ⟨by decide, by decide, by decide⟩

theorem parseNatAux_append (xs ys : List Char) (acc : Nat) :
    parseNatAux acc (xs ++ ys) =
      (parseNatAux acc xs).bind fun a => parseNatAux a ys := by
  induction xs generalizing acc with
  | nil => rfl
  | cons c cs ih =>
    simp only [List.cons_append, parseNatAux]
    cases charDigitVal? c with
    | none => rfl
    | some d => exact ih (acc * 10 + d)

theorem natToCharsAux_ne_nil (fuel n : Nat) (h : n < fuel) :
    natToCharsAux fuel n ≠ [] := by
  cases fuel with
  | zero => omega
  | succ f =>
    unfold natToCharsAux
    split_ifs
    · simp
    · simp

theorem natToCharsAux_digits (fuel n : Nat) (h : n < fuel) :
    ∀ c ∈ natToCharsAux fuel n, ∃ d, c = digitChar d := by
  induction fuel generalizing n with
  | zero => omega
  | succ f ih =>
    unfold natToCharsAux
    split_ifs with h10
    · intro c hc
      simp only [List.mem_singleton] at hc
      exact ⟨n, hc⟩
    · intro c hc
      rw [List.mem_append] at hc
      rcases hc with hc | hc
      · exact ih (n / 10) (by omega) c hc
      · simp only [List.mem_singleton] at hc
        exact ⟨n % 10, hc⟩

theorem parseNatAux_natToCharsAux (fuel : Nat) :
    ∀ n acc, n < fuel →
      parseNatAux acc (natToCharsAux fuel n) =
        some (acc * 10 ^ (natToCharsAux fuel n).length + n) := by
  induction fuel with
  | zero => omega
  | succ f ih =>
    intro n acc h
    unfold natToCharsAux
    split_ifs with h10
    · simp only [parseNatAux, charDigitVal_digitChar n h10]
      simp
    · have hdiv : n / 10 < f := by omega
      rw [parseNatAux_append, ih (n / 10) acc hdiv]
      simp only [Option.bind, parseNatAux, charDigitVal_digitChar (n % 10) (by omega)]
      simp only [List.length_append, List.length_singleton]
      have harith : (acc * 10 ^ (natToCharsAux f (n / 10)).length + n / 10) * 10 + n % 10 =
          acc * 10 ^ ((natToCharsAux f (n / 10)).length + 1) +
            (10 * (n / 10) + n % 10) := by
        rw [pow_succ]
        ring
      rw [Nat.div_add_mod] at harith
      rw [harith]

theorem parseNat_natToChars (n : Nat) : parseNat? (natToChars n) = some n := by
  have hne : natToChars n ≠ [] := natToCharsAux_ne_nil (n + 1) n (by omega)
  obtain ⟨c, cs, hc⟩ := List.exists_cons_of_ne_nil hne
  have := parseNatAux_natToCharsAux (n + 1) n 0 (by omega)
  unfold natToChars at hc ⊢
  rw [hc] at this ⊢
  simp only [parseNat?]
  simpa using this

theorem natToChars_digits (n : Nat) : ∀ c ∈ natToChars n, ∃ d, c = digitChar d :=
  natToCharsAux_digits (n + 1) n (by omega)

theorem intToChars_no_bar (i : Int) : ∀ c ∈ intToChars i, c ≠ '|' := by
  intro c hc
  unfold intToChars at hc
  split_ifs at hc with hneg
  · rw [List.mem_cons] at hc
    rcases hc with hc | hc
    · subst hc; decide
    · obtain ⟨d, hd⟩ := natToChars_digits i.natAbs c hc
      rw [hd]; exact (digitChar_ne d).1
  · obtain ⟨d, hd⟩ := natToChars_digits i.toNat c hc
    rw [hd]; exact (digitChar_ne d).1

theorem parseInt64_neg_cons (rest : List Char) :
    parseInt64? ('-' :: rest) =
      match parseNat? rest with
      | some n => if n ≤ 9223372036854775808 then some (-(n : Int)) else none
      | none => none := rfl

theorem parseInt64_digit_cons (c : Char) (rest : List Char)
    (h1 : ¬c = '+') (h2 : ¬c = '-') :
    parseInt64? (c :: rest) =
      match parseNat? (c :: rest) with
      | some n => if n ≤ 9223372036854775807 then some ((n : Int)) else none
      | none => none := by
  simp only [parseInt64?, if_neg h1, if_neg h2]

theorem parseInt64_intToChars (i : Int)
    (h1 : -9223372036854775808 ≤ i) (h2 : i ≤ 9223372036854775807) :
    parseInt64? (intToChars i) = some i := by
  unfold intToChars
  split_ifs with hneg
  · rw [parseInt64_neg_cons, parseNat_natToChars]
    dsimp only
    rw [if_pos (by omega)]
    congr 1
    omega
  · push_neg at hneg
    have hne : natToChars i.toNat ≠ [] := natToCharsAux_ne_nil (i.toNat + 1) i.toNat (by omega)
    obtain ⟨c, cs, hc⟩ := List.exists_cons_of_ne_nil hne
    have hcdig : ∃ d, c = digitChar d := by
      refine natToChars_digits i.toNat c ?_
      rw [hc]; exact List.mem_cons_self c cs
    obtain ⟨d, hd⟩ := hcdig
    rw [hc, parseInt64_digit_cons c cs
      (by rw [hd]; exact (digitChar_ne d).2.1)
      (by rw [hd]; exact (digitChar_ne d).2.2)]
    rw [← hc, parseNat_natToChars]
    dsimp only
    rw [if_pos (by omega)]
    congr 1
    omega

theorem splitOnBar_ne_nil (l : List Char) : splitOnBar l ≠ [] := by
  cases l with
  | nil => simp [splitOnBar]
  | cons c cs =>
    unfold splitOnBar
    split_ifs
    · simp
    · cases splitOnBar cs <;> simp

theorem splitOnBar_no_bar (l : List Char) (h : ∀ c ∈ l, c ≠ '|') :
    splitOnBar l = [l] := by
  induction l with
  | nil => rfl
  | cons c cs ih =>
    unfold splitOnBar
    rw [if_neg (h c (List.mem_cons_self c cs)),
      ih fun x hx => h x (List.mem_cons_of_mem c hx)]

theorem splitOnBar_append_bar (k rest : List Char) (h : ∀ c ∈ k, c ≠ '|') :
    splitOnBar (k ++ '|' :: rest) = k :: splitOnBar rest := by
  induction k with
  | nil =>
    simp only [List.nil_append]
    conv_lhs => rw [splitOnBar.eq_def]
    simp
  | cons c k' ih =>
    simp only [List.cons_append]
    conv_lhs => rw [splitOnBar.eq_def]
    simp only [if_neg (h c (List.mem_cons_self c k'))]
    rw [ih fun x hx => h x (List.mem_cons_of_mem c hx)]

/-- C10: encoding a blob-stream cursor whose key contains no `|` with
`cursor.String()` and parsing it back with `parseCursor` returns an equal
cursor (same key, offset and last flag) with no error; the offset bounds
are those of the Go `int64` field. -/
theorem parseCursorRoundTrip (c : Cursor) (hk : '|' ∉ c.Key)
    (h1 : -(2 ^ 63) ≤ c.Offset) (h2 : c.Offset < 2 ^ 63) :
    parseCursor c.toChars = some c := by
  have hkey : ∀ ch ∈ c.Key, ch ≠ '|' := fun ch hch he => hk (he ▸ hch)
  have hoff : parseInt64? (intToChars c.Offset) = some c.Offset :=
    parseInt64_intToChars c.Offset (by norm_num at h1 ⊢; omega)
      (by norm_num at h2 ⊢; omega)
  have hbar := intToChars_no_bar c.Offset
  obtain ⟨key, off, last⟩ := c
  simp only at hkey hoff hbar ⊢
  unfold Cursor.toChars
  simp only
  cases last with
  | false =>
    rw [if_neg (by decide)]
    have hne : key ++ '|' :: intToChars off ≠ [] := by simp
    unfold parseCursor
    rw [if_neg hne, splitOnBar_append_bar key _ hkey,
      splitOnBar_no_bar _ hbar]
    simp only [hoff]
  | true =>
    rw [if_pos (by decide)]
    have hassoc : (key ++ '|' :: intToChars off) ++ '|' :: "last".toList =
        key ++ '|' :: (intToChars off ++ '|' :: "last".toList) := by
      simp
    rw [hassoc]
    have hne : key ++ '|' :: (intToChars off ++ '|' :: "last".toList) ≠ [] := by simp
    unfold parseCursor
    rw [if_neg hne, splitOnBar_append_bar key _ hkey,
      splitOnBar_append_bar _ _ hbar,
      splitOnBar_no_bar "last".toList (by decide)]
    simp only [hoff]
    simp

/-- C10 witness: a concrete negative-offset, last-flagged cursor
round-trips. -/
theorem parseCursorRoundTrip_witness :
    parseCursor ((Cursor.mk "a".toList (-5) true).toChars) =
      some (Cursor.mk "a".toList (-5) true) :=
  parseCursorRoundTrip ⟨"a".toList, -5, true⟩ (by decide)
    (by norm_num) (by norm_num)
